import Mathlib

/-!
Verification development for the SEO_Spider repository (src/utils.py,
src/spider.py, src/main.py, src/whois_checker.py).

The Python sources are shallowly embedded as executable Lean definitions:
  * strings are modelled as `String` / `List Char` with hand-rolled models of
    the Python string methods actually used (`rstrip('/')`, `split('#')[0]`,
    `lower`, `replace`, `startswith`, `endswith`, substring containment);
  * `urllib.parse.urlparse` is modelled by `pyUrlparse`, restricted to the
    behaviour exercised here (scheme / netloc / path / query / fragment
    splitting of the WHATWG-style URLs the crawler handles);
  * HTML parsing (`BeautifulSoup`) is modelled by taking the already-parsed
    tag list as input, and `urllib.parse.urljoin` is an explicit function
    parameter (it is an external library call);
  * `requests.get` outcomes are inputs: each fetch attempt is either
    `none` (a raised `requests.exceptions.RequestException`, i.e. a
    transport error) or `some` response;
  * the concurrent worker loop is modelled as a sequential small-step
    interpreter (`workerStep` / `runSteps`); the shared flags `paused` /
    `cancelled` appear as explicit parameters where the source reads them.
-/

/-! ## Character and string helpers (models of the Python string methods) -/

/-- Model of Python `str.lower` for a single character, on the ASCII range
(the URLs handled by the crawler are ASCII; non-ASCII characters are kept
unchanged, as are all characters outside `A`-`Z`, whose code points are
shifted by 32). -/
def lowerChar (c : Char) : Char :=
  if 65 ≤ c.toNat ∧ c.toNat ≤ 90 then Char.ofNat (c.toNat + 32) else c

/-- Python `str.lower` on a character list. -/
def lowerStr (s : List Char) : List Char := s.map lowerChar

/-- Python `url.rstrip('/')`: remove every trailing `'/'`. -/
def rstripSlash (s : List Char) : List Char :=
  ((s.reverse).dropWhile (fun c => c = '/')).reverse

/-- Python `url.split('#')[0]`: the part before the first `'#'`. -/
def beforeHash (s : List Char) : List Char := s.takeWhile (fun c => c ≠ '#')

/-- Python `url.split('?')[0]`: the part before the first `'?'`. -/
def beforeQm (s : List Char) : List Char := s.takeWhile (fun c => c ≠ '?')

/-- Python `s.split(sep, 1)` for a one-character separator, returning the part
before the first occurrence and the part after it (the whole string and `[]`
when the separator does not occur, matching how the source uses it). -/
def splitOnce (sep : Char) (s : List Char) : List Char × List Char :=
  (s.takeWhile (fun c => c ≠ sep), (s.dropWhile (fun c => c ≠ sep)).drop 1)

/-- Substring containment, Python `pat in s`. -/
def containsSub (pat : List Char) : List Char → Bool
  | [] => pat.isPrefixOf []
  | c :: cs => pat.isPrefixOf (c :: cs) || containsSub pat cs

/-- Scanner for `replaceAllEmpty`; the fuel argument (instantiated with the
length of the scanned list, which bounds the number of scanning steps) only
makes the recursion structural. -/
def replaceAllAux (pat : List Char) : Nat → List Char → List Char
  | 0, s => s
  | _ + 1, [] => []
  | n + 1, c :: cs =>
    if pat ≠ [] ∧ pat.isPrefixOf (c :: cs) then
      replaceAllAux pat n (cs.drop (pat.length - 1))
    else
      c :: replaceAllAux pat n cs

/-- Python `s.replace(pat, '')` for a non-empty pattern: delete every
(left-to-right, non-overlapping) occurrence of `pat` in `s`. -/
def replaceAllEmpty (pat : List Char) (s : List Char) : List Char :=
  replaceAllAux pat s.length s

/-! ## Model of `urllib.parse.urlparse` -/

/-- Components produced by `urllib.parse.urlparse` (the `params` component is
never used by the sources and is omitted). -/
structure UrlParts where
  scheme : List Char
  netloc : List Char
  path : List Char
  query : List Char
  fragment : List Char

def isSchemeRestChar (c : Char) : Bool :=
  c.isAlphanum || c = '+' || c = '-' || c = '.'

def firstIsAlpha : List Char → Bool
  | [] => false
  | c :: _ => c.isAlpha

/-- The scheme-extraction step of CPython `urlsplit`: if the text before the
first `':'` is a non-empty run of scheme characters starting with a letter,
it is the (lower-cased) scheme. -/
def splitScheme (s : List Char) : List Char × List Char :=
  let pre := s.takeWhile (fun c => c ≠ ':')
  if pre.length < s.length ∧ firstIsAlpha pre ∧ pre.all isSchemeRestChar then
    (lowerStr pre, s.drop (pre.length + 1))
  else
    ([], s)

def isNetlocEnd (c : Char) : Bool := c = '/' || c = '?' || c = '#'

/-- Model of `urllib.parse.urlparse` (CPython `urlsplit` order: scheme, then
`//netloc` up to the next `/`, `?` or `#`, then fragment, then query). -/
def pyUrlparse (s : List Char) : UrlParts :=
  let (scheme, rest) := splitScheme s
  let (netloc, rest2) :=
    if rest.take 2 = ['/', '/'] then
      ((rest.drop 2).takeWhile (fun c => !isNetlocEnd c),
       (rest.drop 2).dropWhile (fun c => !isNetlocEnd c))
    else
      ([], rest)
  let (rest3, fragment) := splitOnce '#' rest2
  let (path, query) := splitOnce '?' rest3
  ⟨scheme, netloc, path, query, fragment⟩

/-! ## src/utils.py -/

/-- `utils.is_valid_url`: the URL parses with a truthy (non-empty) scheme and
netloc, and the scheme is `http` or `https`. -/
def is_valid_url (url : String) : Bool :=
  let p := pyUrlparse url.data
  (decide (p.scheme ≠ []) && decide (p.netloc ≠ [])) &&
    (decide (p.scheme = "http".data) || decide (p.scheme = "https".data))

/-- `utils.get_domain`: `urlparse(url).netloc.replace('www.', '')`.
Note that Python `str.replace` deletes every occurrence of `"www."`, not just
a leading one. -/
def get_domain (url : String) : String :=
  ⟨replaceAllEmpty "www.".data (pyUrlparse url.data).netloc⟩

/-- `utils.is_external_url`: `get_domain(url) != base_domain`. -/
def is_external_url (base_domain : String) (url : String) : Bool :=
  get_domain url ≠ base_domain

/-! ## src/spider.py — URL classification -/

/-- `Spider._normalize_url`: remove trailing slashes, then remove the
fragment (`split('#')[0]`), then lower-case — in exactly that order. -/
def normalize_url (url : String) : String :=
  ⟨lowerStr (beforeHash (rstripSlash url.data))⟩

/-- `Spider.resource_extensions` (a Python dict; insertion order matters
because `_get_resource_type` returns the first matching category). -/
def resource_extensions : List (String × List String) :=
  [("images", [".jpg", ".jpeg", ".png", ".gif", ".bmp", ".webp", ".svg", ".ico"]),
   ("documents", [".pdf", ".doc", ".docx", ".xls", ".xlsx", ".ppt", ".pptx", ".txt", ".rtf"]),
   ("stylesheets", [".css", ".scss", ".sass", ".less"]),
   ("scripts", [".js", ".jsx", ".ts", ".tsx", ".coffee"]),
   ("media", [".mp3", ".mp4", ".wav", ".ogg", ".webm", ".mov", ".avi", ".flv"]),
   ("archives", [".zip", ".rar", ".7z", ".tar", ".gz", ".bz2"])]

/-- `Spider._get_resource_type`: strip query and fragment, lower-case, and
return the first resource category one of whose extensions is a suffix. -/
def get_resource_type (url : String) : Option String :=
  let u := lowerStr (beforeHash (beforeQm url.data))
  (resource_extensions.find? (fun p => p.2.any (fun ext => ext.data.isSuffixOf u))).map
    (fun p => p.1)

/-- The `crawl_resources` configuration dict: which resource categories are
enabled (`main.py` always passes all six keys). -/
structure CrawlResources where
  images : Bool
  documents : Bool
  stylesheets : Bool
  scripts : Bool
  media : Bool
  archives : Bool
deriving DecidableEq

/-- `self.crawl_resources.get(resource_type, False)`. -/
def resourceEnabled (cfg : CrawlResources) (t : String) : Bool :=
  if t = "images" then cfg.images
  else if t = "documents" then cfg.documents
  else if t = "stylesheets" then cfg.stylesheets
  else if t = "scripts" then cfg.scripts
  else if t = "media" then cfg.media
  else if t = "archives" then cfg.archives
  else false

/-- `Spider._is_allowed_by_robots`: the URL's path must not start with any
recorded disallowed path (the `robots_rules` dict keys). -/
def robots_allowed (rules : List String) (url : String) : Bool :=
  let path := (pyUrlparse url.data).path
  !(rules.any (fun r => r.data.isPrefixOf path))

/-! ## src/spider.py — link extraction -/

/-- One tag found by `soup.find_all(['a', 'img', 'script', 'link'])`: its
`href` attribute, its `src` attribute and its `rel` attribute (a list in
BeautifulSoup; absent is the empty list, which is falsy like `None`). -/
structure Tag where
  href : Option String
  src : Option String
  rel : List String
deriving DecidableEq

/-- `tag.get('href') or tag.get('src')` with Python truthiness (an empty
`href` string falls through to `src`). -/
def effectiveHref (t : Tag) : Option String :=
  match t.href with
  | some h => if h = "" then t.src else some h
  | none => t.src

/-- `href.startswith(('javascript:', 'mailto:', 'tel:', '#'))`. -/
def skipHref (h : String) : Bool :=
  "javascript:".data.isPrefixOf h.data || "mailto:".data.isPrefixOf h.data ||
    "tel:".data.isPrefixOf h.data || "#".data.isPrefixOf h.data

/-- `tag.get('rel') and 'nofollow' in [r.lower() for r in tag.get('rel')]`. -/
def hasNofollow (t : Tag) : Bool :=
  !(t.rel.isEmpty) && (t.rel.map (fun r => (⟨lowerStr r.data⟩ : String))).contains "nofollow"

/-- `Spider._extract_links`, over the parsed tag list of the page.
`uj` is `urllib.parse.urljoin` (external library), `visited` the current
contents of `self.visited`.  Kept in loop order: each accepted link is
appended. -/
def extract_links (visited : List String) (cfg : CrawlResources) (pageUrl : String)
    (uj : String → String → String) : List Tag → List String
  | [] => []
  | t :: ts =>
    let rest := extract_links visited cfg pageUrl uj ts
    match effectiveHref t with
    | none => rest
    | some h =>
      if h = "" then rest
      else if skipHref h then rest
      else if hasNofollow t then rest
      else
        let full_url := uj pageUrl h
        if is_valid_url full_url then
          let normalized := normalize_url full_url
          if normalized ∉ visited then
            match get_resource_type normalized with
            | some rt => if resourceEnabled cfg rt then normalized :: rest else rest
            | none => normalized :: rest
          else rest
        else rest

/-! ## src/spider.py — fetching with retry, and `_crawl_url` -/

/-- The status stored in a result: an HTTP status code, or the string
sentinel `"Request Failed"` the source initialises `status` with. -/
inductive Status where
  | code : Nat → Status
  | requestFailed : Status
deriving DecidableEq

/-- A completed `requests.get` response: status code, `Content-Type` header
(defaulting to `""`), and the parsed tag list of `response.text`. -/
structure Resp where
  code : Nat
  contentType : String
  body : List Tag
deriving DecidableEq

/-- Outcome of the retry loop in `_crawl_url` (`max_retries = 3`,
`retry_delay = 1.0`).  `sleeps` records the back-off sleeps performed between
attempts, in units of `retry_delay`: the source sleeps
`retry_delay * (attempt + 1)` after failed attempt `attempt`.  `errors` is
the increment applied to `self.error_count`. -/
structure RetryOutcome where
  resp : Option Resp
  status : Status
  contentType : String
  sleeps : List Nat
  errors : Nat
deriving DecidableEq

/-- The `for attempt in range(max_retries)` loop of `_crawl_url`: each entry
of `attempts` is one `requests.get` outcome, `none` meaning a raised
`requests.exceptions.RequestException`; a missing entry is also a failure.
The loop breaks on the first completed response. -/
def fetchWithRetry (attempts : List (Option Resp)) : RetryOutcome :=
  match attempts.getD 0 none with
  | some r => ⟨some r, Status.code r.code, r.contentType, [], 0⟩
  | none =>
    match attempts.getD 1 none with
    | some r => ⟨some r, Status.code r.code, r.contentType, [1], 0⟩
    | none =>
      match attempts.getD 2 none with
      | some r => ⟨some r, Status.code r.code, r.contentType, [1, 2], 0⟩
      | none => ⟨none, Status.requestFailed, "", [1, 2], 1⟩

/-- A row handed to `self.results_queue` (and stored in the `results`
table). -/
structure CrawlResult where
  url : String
  status : Status
  referrer : String
  typ : String
  domain : String
  depth : Nat
deriving DecidableEq

/-- An entry of the `url_queue` priority queue: the tuple
`(depth, url, referrer)`. -/
structure CrawlTask where
  depth : Nat
  url : String
  referrer : String
deriving DecidableEq

/-- The link-following block at the end of `Spider._crawl_url`: extract the
links of the fetched page and keep those that are unvisited and allowed by
robots, as child tasks at `depth + 1` with the page as referrer.  The
`try/except` around extraction cannot fire in the model because extraction
is total. -/
def crawl_children (cfg : CrawlResources) (robots : List String) (visited : List String)
    (uj : String → String → String) (url : String) (depth : Nat) (resp : Option Resp) :
    List CrawlTask :=
  match resp with
  | some r =>
    -- `if response and response.text:` — `response` is truthy in the branch
    -- where this runs (status 200), and an empty `response.text` parses to
    -- no tags.
    if r.body.isEmpty then []
    else
      ((extract_links visited cfg url uj r.body).filter
          (fun l => decide (l ∉ visited) && robots_allowed robots l)).map
        (fun l => ⟨depth + 1, l, url⟩)
  | none => []

/-- `Spider._crawl_url` proper, returning the results put on
`results_queue` and the child tasks put on `url_queue`.  `cancelled` is the
value of `self.cancelled.is_set()` read at entry (the pause busy-wait loop
either ends with the pause flag cleared — continuing below — or with
cancellation, which is the same early return as the entry check).
`visited` is the value of `self.visited` while this call runs. -/
def crawl_url (cancelled : Bool) (cfg : CrawlResources) (robots : List String)
    (base_domain : String) (max_depth : Nat) (visited : List String)
    (uj : String → String → String) (url : String) (depth : Nat) (referrer : String)
    (attempts : List (Option Resp)) : List CrawlResult × List CrawlTask :=
  if cancelled then ([], [])
  else
    let ro := fetchWithRetry attempts
    let url_type := if is_external_url base_domain url then "external" else "internal"
    let result : CrawlResult := ⟨url, ro.status, referrer, url_type, get_domain url, depth⟩
    let children :=
      if url_type = "internal" ∧ ro.status = Status.code 200 ∧
          containsSub "text/html".data ro.contentType.data = true ∧ depth < max_depth then
        crawl_children cfg robots visited uj url depth ro.resp
      else []
    ([result], children)

/-! ## src/spider.py — the `url_queue` priority queue -/

/-- Python `<` on two characters (code-point comparison). -/
def charLt (a b : Char) : Bool := a.toNat < b.toNat

/-- Python `<` on two strings: lexicographic by code point, a proper
shorter string being smaller. -/
def strLt : List Char → List Char → Bool
  | [], [] => false
  | [], _ :: _ => true
  | _ :: _, [] => false
  | a :: as_, b :: bs =>
    if charLt a b then true
    else if charLt b a then false
    else strLt as_ bs

/-- Python `<` on the queue entries `(depth, url, referrer)` — tuple
comparison: depth first, then the URL string, then the referrer string.
`queue.PriorityQueue` (a binary heap over this order) always hands out a
minimal entry; equal-priority entries are compared by these string fields,
not by insertion order. -/
def taskLt (a b : CrawlTask) : Bool :=
  if a.depth < b.depth then true
  else if b.depth < a.depth then false
  else if strLt a.url.data b.url.data then true
  else if strLt b.url.data a.url.data then false
  else strLt a.referrer.data b.referrer.data

/-- `url_queue.get()` on the heap model: remove a minimal entry (the
earliest of the minimal entries; minimal entries compare equal only when
they are identical tuples). -/
def popMin : List CrawlTask → Option (CrawlTask × List CrawlTask)
  | [] => none
  | t :: ts =>
    match popMin ts with
    | none => some (t, [])
    | some (m, rest) => if taskLt m t then some (m, t :: rest) else some (t, ts)

/-- Repeatedly `get()` until the queue is empty (fuel-driven so that the
kernel can evaluate it; `q.length` steps always suffice). -/
def drainFuel : Nat → List CrawlTask → List CrawlTask
  | 0, _ => []
  | n + 1, q =>
    match popMin q with
    | none => []
    | some (t, rest) => t :: drainFuel n rest

/-- The full dequeue order of a queue holding `q`. -/
def drainAll (q : List CrawlTask) : List CrawlTask := drainFuel q.length q

/-! ## src/spider.py — the worker loop as a sequential interpreter -/

/-- The per-run environment: configuration plus the models of the external
world (`urljoin` and the network).  `world url` is the list of
`requests.get` outcomes the network produces for the (up to 3) attempts on
`url`. -/
structure Env where
  cfg : CrawlResources
  robots : List String
  base_domain : String
  max_depth : Nat
  uj : String → String → String
  world : String → List (Option Resp)

/-- The shared mutable state a worker touches: `url_queue`, `visited` and
the stream of results put on `results_queue`. -/
structure CrawlState where
  frontier : List CrawlTask
  visited : List String
  results : List CrawlResult
deriving DecidableEq

/-- One iteration of `Spider._worker` (uncancelled, unpaused): `get` a task;
if its URL is already in `visited`, drop it; otherwise add the URL to
`visited` (the dequeue-time test-and-insert under `visited_lock`) and run
`_crawl_url`, appending its result and enqueuing its children. -/
def workerStep (e : Env) (s : CrawlState) : CrawlState :=
  match popMin s.frontier with
  | none => s
  | some (t, rest) =>
    if t.url ∈ s.visited then { s with frontier := rest }
    else
      let visited' := s.visited ++ [t.url]
      let rc := crawl_url false e.cfg e.robots e.base_domain e.max_depth visited'
        e.uj t.url t.depth t.referrer (e.world t.url)
      { frontier := rest ++ rc.2, visited := visited', results := s.results ++ rc.1 }

/-- `n` worker iterations. -/
def runSteps (e : Env) : Nat → CrawlState → CrawlState
  | 0, s => s
  | n + 1, s => runSteps e n (workerStep e s)

/-- The state after `Spider.__init__` / `Spider.crawl(url)`: the seed URL is
enqueued exactly as given (`(0, self.base_url, "root")` — not normalized),
`visited` and the results store are empty. -/
def initState (seed : String) : CrawlState :=
  ⟨[⟨0, seed, "root"⟩], [], []⟩

/-! ## src/spider.py — the result sink (`_process_batches`) -/

/-- State of the result sink: the `results_queue` channel, the in-memory
`batch` list of the consumer loop, and the rows written to the SQLite
`results` table. -/
structure SinkState where
  channel : List CrawlResult
  batch : List CrawlResult
  db : List CrawlResult
deriving DecidableEq

/-- A worker's `self.results_queue.put(result)` (the successful hand-off). -/
def sink_put (r : CrawlResult) (s : SinkState) : SinkState :=
  { s with channel := s.channel ++ [r] }

/-- `if batch: self._write_batch_to_db(batch)` followed by `batch = []`
(the table has no rows with duplicate URLs within one run, so
`INSERT OR REPLACE` is plain insertion here). -/
def flushBatch (s : SinkState) : SinkState :=
  if s.batch.isEmpty then s else { s with db := s.db ++ s.batch, batch := [] }

/-- One iteration of the `while not self.cancelled.is_set()` loop of
`_process_batches`, executed only when the flag is unset: `get` one result
(appending it to `batch`, flushing at `batch_size = 100`), or — on
`queue.Empty` — flush the partial batch. -/
def sink_iter (s : SinkState) : SinkState :=
  match s.channel with
  | r :: rest =>
    let b := s.batch ++ [r]
    if 100 ≤ b.length then ⟨rest, [], s.db ++ b⟩ else ⟨rest, b, s.db⟩
  | [] => flushBatch s

/-- The code after the loop exits (which happens once `cancelled` is
observed set at the loop head): only the in-memory `batch` is flushed;
whatever is still sitting on `results_queue` is not read again. -/
def sink_finish (s : SinkState) : SinkState := flushBatch s

/-- The rows `cancel()` / `get_results()` can read back from the database
after the batch processor has exited. -/
def persistedOnCancel (s : SinkState) : List CrawlResult := (sink_finish s).db

/-! ## src/spider.py — pause / resume / cancel control state -/

/-- The spider's thread-control state: the two `threading.Event` flags and
the liveness of the worker threads in `self.threads`. -/
structure SpiderCtl where
  paused : Bool
  cancelled : Bool
  threads : List Bool
deriving DecidableEq

/-- `Spider.pause`: sets the pause flag only when not cancelled. -/
def pause (c : SpiderCtl) : SpiderCtl :=
  if c.cancelled then c else { c with paused := true }

/-- `Spider.resume`: when not cancelled, clears the pause flag and — if no
worker thread is alive and the queue is non-empty — starts
`min(max_threads, qsize)` fresh workers.  When cancelled it only logs. -/
def resume (max_threads qsize : Nat) (c : SpiderCtl) : SpiderCtl :=
  if c.cancelled then c
  else
    let c' := { c with paused := false }
    if (c.threads.filter id).length = 0 ∧ qsize ≠ 0 then
      { c' with threads := List.replicate (min max_threads qsize) true }
    else c'

/-! ## src/main.py — WHOIS resolution during result finalization -/

/-- The shared shape of the result-finalization loops in `main.py`: walk the
results; for an `"external"` row whose domain is not yet a key of the local
`seen_domains` dict, call `check_domain` and record it.  Returns the
domains passed to `WhoisChecker.check_domain`, in call order. -/
def whoisCallsAux : List CrawlResult → List String → List String
  | [], _ => []
  | r :: rs, seen =>
    if r.typ = "external" then
      if r.domain ∈ seen then whoisCallsAux rs seen
      else r.domain :: whoisCallsAux rs (r.domain :: seen)
    else whoisCallsAux rs seen

/-- The domains `run_scan_thread` (completion path, `main.py`) resolves:
its `seen_domains` starts as a fresh empty dict local to the function. -/
def run_scan_whois_calls (results : List CrawlResult) : List String :=
  whoisCallsAux results []

/-- The domains `cancel_scan` (cancellation path, `main.py`) resolves: its
`seen_domains` is again a fresh local dict; when `global_whois_checker` is
not yet set it uses an `"Unknown"` stub and resolves nothing. -/
def cancel_scan_whois_calls (hasGlobalChecker : Bool) (results : List CrawlResult) :
    List String :=
  if hasGlobalChecker then whoisCallsAux results [] else []

/-! ## Claim-side (specification) definitions and concrete sample data -/

/-- Specification-side enqueue rule, written from the spec's words for the
link-filter claim: an extracted candidate link is enqueued exactly when its
effective href exists and is truthy, does not start with `javascript:`,
`mailto:`, `tel:` or `#`, its tag's `rel` does not contain `nofollow`, the
resolved URL passes `is_valid_url`, and the normalized URL is not already
visited, is allowed by the robots policy, and either has no resource type or
has its resource category enabled.  The enqueued child carries `depth + 1`
and the page URL as referrer. -/
def spec_enqueues (visited : List String) (cfg : CrawlResources) (robots : List String)
    (pageUrl : String) (uj : String → String → String) (depth : Nat) (t : Tag) :
    Option CrawlTask :=
  match effectiveHref t with
  | none => none
  | some h =>
    if h = "" then none
    else if skipHref h then none
    else if hasNofollow t then none
    else
      let full_url := uj pageUrl h
      if is_valid_url full_url then
        let n := normalize_url full_url
        if n ∉ visited ∧ robots_allowed robots n = true ∧
            ((get_resource_type n).all (resourceEnabled cfg)) = true then
          some ⟨depth + 1, n, pageUrl⟩
        else none
      else none

/-- A concrete resolver standing in for `urllib.parse.urljoin` in the
concrete sample runs: absolute URLs pass through, anything else is appended
to the base (adequate for the host-relative hrefs used below). -/
def ujSample (base rel : String) : String :=
  if containsSub "://".data rel.data then rel else base ++ rel

/-- All resource categories disabled. -/
def cfgNone : CrawlResources := ⟨false, false, false, false, false, false⟩

/-- The seed page of the sample world: two anchors, one to `/p` and one to
`/p/#f` (same page up to trailing slash and fragment). -/
def seedTags : List Tag := [⟨some "/p", none, []⟩, ⟨some "/p/#f", none, []⟩]

/-- Sample environment: the seed `https://a.com` serves an HTML page with
the two links above; every other URL fails all three fetch attempts with a
transport error. -/
def envSample : Env :=
  { cfg := cfgNone
    robots := []
    base_domain := "a.com"
    max_depth := 3
    uj := ujSample
    world := fun u =>
      if u = "https://a.com" then [some ⟨200, "text/html", seedTags⟩]
      else [none, none, none] }

/-- The page used by the C6 witness: one good link, one `mailto:`, one
image (category disabled), one robots-disallowed link, one `nofollow`. -/
def tagsC6 : List Tag :=
  [⟨some "/about", none, []⟩, ⟨some "mailto:x@y.com", none, []⟩,
   ⟨none, some "/logo.png", []⟩, ⟨some "/admin/x", none, []⟩,
   ⟨some "/f", none, ["nofollow"]⟩]

/-- The response used by the C6 witness. -/
def respC6 : Resp := ⟨200, "text/html; charset=utf-8", tagsC6⟩

/-- The worker-loop invariant: result URLs are pairwise distinct, and every
recorded URL is in the visited set. -/
def StateInv (s : CrawlState) : Prop :=
  (s.results.map (fun r => r.url)).Nodup ∧ ∀ r ∈ s.results, r.url ∈ s.visited

/-! ## Helper lemmas about the string models -/

theorem toNat_ofNat_valid {n : Nat} (h1 : 97 ≤ n) (h2 : n ≤ 122) :
    (Char.ofNat n).toNat = n := by
  unfold Char.ofNat
  split
  · rfl
  · rename_i hv
    exfalso
    apply hv
    constructor
    omega

theorem char_eq_of_toNat_eq {c d : Char} (h : c.toNat = d.toNat) : c = d := by
  have := congrArg Char.ofNat h
  rwa [Char.ofNat_toNat, Char.ofNat_toNat] at this

theorem toNat_lowerChar (c : Char) :
    (lowerChar c).toNat = if 65 ≤ c.toNat ∧ c.toNat ≤ 90 then c.toNat + 32 else c.toNat := by
  unfold lowerChar
  split
  · rename_i h
    exact toNat_ofNat_valid (by omega) (by omega)
  · rfl

theorem lowerChar_eq_hash {c : Char} (h : lowerChar c = '#') : c = '#' := by
  have ht := congrArg Char.toNat h
  rw [toNat_lowerChar] at ht
  apply char_eq_of_toNat_eq
  rw [show ('#' : Char).toNat = 35 from rfl] at ht ⊢
  split at ht
  · omega
  · exact ht

theorem lowerChar_eq_slash {c : Char} (h : lowerChar c = '/') : c = '/' := by
  have ht := congrArg Char.toNat h
  rw [toNat_lowerChar] at ht
  apply char_eq_of_toNat_eq
  rw [show ('/' : Char).toNat = 47 from rfl] at ht ⊢
  split at ht
  · omega
  · exact ht

theorem head?_dropWhile_false {α : Type} (p : α → Bool) :
    ∀ (l : List α) (c : α), (List.dropWhile p l).head? = some c → p c = false := by
  intro l
  induction l with
  | nil => intro c h; simp at h
  | cons a as ih =>
    intro c h
    rw [List.dropWhile_cons] at h
    by_cases hp : p a = true
    · rw [if_pos hp] at h
      exact ih c h
    · rw [if_neg hp] at h
      simp only [List.head?_cons, Option.some.injEq] at h
      subst h
      simpa using hp

theorem rstripSlash_getLast (s : List Char) : (rstripSlash s).getLast? ≠ some '/' := by
  intro h
  unfold rstripSlash at h
  rw [List.getLast?_reverse] at h
  have := head?_dropWhile_false (fun c => c = '/') s.reverse '/' h
  simp at this

theorem mem_rstripSlash {c : Char} {s : List Char} (h : c ∈ rstripSlash s) : c ∈ s := by
  unfold rstripSlash at h
  rw [List.mem_reverse] at h
  have hrev : c ∈ s.reverse := (List.dropWhile_sublist (fun c => c = '/')).mem h
  exact List.mem_reverse.mp hrev

/-! ## C7 — `normalize_url` -/

/-- C7 (amended): `_normalize_url` strips trailing slashes, then removes the
fragment, then lower-cases, in that order.  Consequently the result never
contains `'#'`; and for an input without a fragment marker the result never
ends with `'/'`.  (Because the slash-stripping happens before the fragment
removal, an input with a `'/'` directly before its `'#'` does yield a result
ending in `'/'` — see the counterexample.) -/
theorem normalize_no_hash_no_trailing_slash (url : String) :
    '#' ∉ (normalize_url url).data ∧
      ('#' ∉ url.data → (normalize_url url).data.getLast? ≠ some '/') := by
  constructor
  · intro hmem
    simp only [normalize_url, lowerStr] at hmem
    rcases List.mem_map.mp hmem with ⟨c, hc, hlc⟩
    have hch : c = '#' := lowerChar_eq_hash hlc
    subst hch
    have := List.mem_takeWhile_imp hc
    simp at this
  · intro hno hlast
    simp only [normalize_url, lowerStr] at hlast
    rw [List.getLast?_map] at hlast
    have hbh : beforeHash (rstripSlash url.data) = rstripSlash url.data := by
      apply List.takeWhile_eq_self_iff.mpr
      intro x hx
      have : x ∈ url.data := mem_rstripSlash hx
      simp only [ne_eq, decide_eq_true_eq]
      intro hxh
      exact hno (hxh ▸ this)
    rw [hbh] at hlast
    cases hrl : (rstripSlash url.data).getLast? with
    | none => rw [hrl] at hlast; simp at hlast
    | some c =>
      rw [hrl] at hlast
      simp only [Option.map_some', Option.some.injEq] at hlast
      have : c = '/' := lowerChar_eq_slash hlast
      subst this
      exact rstripSlash_getLast url.data hrl

/-- Witness for the amended C7 theorem at a concrete input. -/
theorem normalize_no_hash_no_trailing_slash_witness :
    '#' ∉ ("https://A.com/Path/" : String).data ∧
      ('#' ∉ (normalize_url "https://A.com/Path/").data ∧
        (normalize_url "https://A.com/Path/").data.getLast? ≠ some '/') :=
  ⟨by decide,
   (normalize_no_hash_no_trailing_slash "https://A.com/Path/").1,
   (normalize_no_hash_no_trailing_slash "https://A.com/Path/").2 (by decide)⟩

/-- C7 counterexample: on `"https://A.com/p/#f"` the claimed behaviour
fails — the trailing slash survives (it is stripped before the fragment is
removed, and the fragment removal re-exposes it), so the result ends in
`'/'` after a non-empty path. -/
theorem normalize_trailing_slash_counterexample :
    normalize_url "https://A.com/p/#f" = "https://a.com/p/" ∧
      (normalize_url "https://A.com/p/#f").data.getLast? = some '/' := by
  constructor
  · decide
  · decide

/-! ## C9 — `get_domain` -/

/-- C9: `get_domain` does not merely strip a leading `"www."` — Python
`str.replace` deletes every occurrence, so a host with `"www."` in a
non-leading position loses those characters too.  The claim asks for
`"en.www.example.com"` here; the code produces `"en.example.com"`. -/
theorem get_domain_strips_all_www :
    get_domain "https://en.www.example.com/page" = "en.example.com" ∧
      get_domain "https://en.www.example.com/page" ≠ "en.www.example.com" ∧
      get_domain "https://www.example.com/page" = "example.com" := by
  refine ⟨by decide, by decide, by decide⟩

/-! ## C10 — pause / resume after cancellation -/

/-- C10: once the cancellation flag is set, `pause` leaves the control state
unchanged (the pause flag is not set) and `resume` leaves it unchanged too
(the pause flag is not cleared and no worker threads are started). -/
theorem cancelled_pause_resume_noop (max_threads qsize : Nat) (c : SpiderCtl)
    (h : c.cancelled = true) :
    pause c = c ∧ resume max_threads qsize c = c := by
  constructor
  · simp [pause, h]
  · simp [resume, h]

/-- Witness for C10 at a concrete state (paused and cancelled, one dead
thread, three queued tasks). -/
theorem cancelled_pause_resume_noop_witness :
    (⟨true, true, [false]⟩ : SpiderCtl).cancelled = true ∧
      pause ⟨true, true, [false]⟩ = ⟨true, true, [false]⟩ ∧
      resume 5 3 ⟨true, true, [false]⟩ = ⟨true, true, [false]⟩ :=
  ⟨rfl, cancelled_pause_resume_noop 5 3 ⟨true, true, [false]⟩ rfl⟩

/-! ## C2 — exactly one result per claimed task; retry back-off -/

/-- C2 (amended): when `_crawl_url` runs for a claimed task with the
cancellation flag unset, it hands exactly one `CrawlResult` to the results
queue whatever the fetch outcome; and when all three attempts raise a
transport error the single result carries the `"Request Failed"` sentinel
(no exception escapes — the model is a total function) and the sleeps
between attempts are `1 × retry_delay` and `2 × retry_delay` (linear
back-off). -/
theorem crawl_url_exactly_one_result (cfg : CrawlResources) (robots : List String)
    (base_domain : String) (max_depth : Nat) (visited : List String)
    (uj : String → String → String) (url : String) (depth : Nat) (referrer : String)
    (attempts : List (Option Resp)) :
    (crawl_url false cfg robots base_domain max_depth visited uj url depth referrer
        attempts).1.length = 1 ∧
      ((∀ i, i < 3 → attempts.getD i none = none) →
        (crawl_url false cfg robots base_domain max_depth visited uj url depth referrer
            attempts).1 =
          [⟨url, Status.requestFailed, referrer,
            if is_external_url base_domain url then "external" else "internal",
            get_domain url, depth⟩] ∧
        (fetchWithRetry attempts).sleeps = [1, 2]) := by
  have hfail : (∀ i, i < 3 → attempts.getD i none = none) →
      fetchWithRetry attempts = ⟨none, Status.requestFailed, "", [1, 2], 1⟩ := by
    intro h
    unfold fetchWithRetry
    rw [h 0 (by omega), h 1 (by omega), h 2 (by omega)]
  constructor
  · simp [crawl_url]
  · intro h
    refine ⟨?_, by rw [hfail h]⟩
    simp only [crawl_url, if_neg (by simp : ¬(false = true)), hfail h]

/-- Witness for the amended C2 theorem: a concrete task whose three
attempts all fail. -/
theorem crawl_url_exactly_one_result_witness :
    (∀ i, i < 3 → ([none, none, none] : List (Option Resp)).getD i none = none) ∧
      (crawl_url false cfgNone [] "a.com" 3 ["https://a.com"] ujSample "https://a.com" 0
          "root" [none, none, none]).1 =
        [⟨"https://a.com", Status.requestFailed, "root",
          if is_external_url "a.com" "https://a.com" then "external" else "internal",
          get_domain "https://a.com", 0⟩] ∧
      (fetchWithRetry [none, none, none]).sleeps = [1, 2] :=
  ⟨by intro i _; rcases i with _ | _ | _ | i <;> rfl,
   (crawl_url_exactly_one_result cfgNone [] "a.com" 3 ["https://a.com"] ujSample
      "https://a.com" 0 "root" [none, none, none]).2
    (by intro i _; rcases i with _ | _ | _ | i <;> rfl)⟩

/-- C2 counterexample: the claim as stated quantifies over every task that
passes the visited check and enters `_crawl_url`.  If the cancellation flag
is (concurrently) set by the time `_crawl_url` reads it, the function
returns at once and the claimed task produces zero results, not one. -/
theorem crawl_url_cancelled_drops_task :
    (crawl_url true cfgNone [] "a.com" 3 [] ujSample "https://a.com" 0 "root"
        [none, none, none]).1 = [] := by
  decide

/-! ## C3 — child depth, referrer, and max-depth cut-off -/

/-- Every child task built by the link-following block carries `depth + 1`
and the page URL as referrer. -/
theorem mem_crawl_children {cfg : CrawlResources} {robots visited : List String}
    {uj : String → String → String} {url : String} {depth : Nat} {resp : Option Resp}
    {tk : CrawlTask} (h : tk ∈ crawl_children cfg robots visited uj url depth resp) :
    tk.depth = depth + 1 ∧ tk.referrer = url := by
  unfold crawl_children at h
  split at h
  · split at h
    · simp at h
    · simp only [List.mem_map] at h
      rcases h with ⟨l, _, rfl⟩
      exact ⟨rfl, rfl⟩
  · simp at h


/-- C3: every child task `_crawl_url` enqueues carries `depth + 1` and the
parent URL as referrer; and a task at `depth ≥ max_depth` is still fetched
and recorded (exactly one result) but enqueues no children. -/
theorem child_depth_referrer_max_depth (cfg : CrawlResources) (robots : List String)
    (base_domain : String) (max_depth : Nat) (visited : List String)
    (uj : String → String → String) (url : String) (depth : Nat) (referrer : String)
    (attempts : List (Option Resp)) :
    (∀ tk ∈ (crawl_url false cfg robots base_domain max_depth visited uj url depth
        referrer attempts).2, tk.depth = depth + 1 ∧ tk.referrer = url) ∧
      (max_depth ≤ depth →
        (crawl_url false cfg robots base_domain max_depth visited uj url depth referrer
            attempts).2 = [] ∧
          (crawl_url false cfg robots base_domain max_depth visited uj url depth referrer
              attempts).1.length = 1) := by
  constructor
  · intro tk htk
    simp only [crawl_url, if_neg (by simp : ¬(false = true))] at htk
    by_cases hext : is_external_url base_domain url = true
    · rw [if_pos hext, if_neg (by simp)] at htk
      simp at htk
    · rw [if_neg hext] at htk
      split at htk
      · exact mem_crawl_children htk
      · simp at htk
  · intro hd
    constructor
    · simp only [crawl_url, if_neg (by simp : ¬(false = true))]
      rw [if_neg]
      intro hcond
      omega
    · simp [crawl_url]

/-- Witness for C3: a concrete task at `depth = max_depth = 3` whose fetch
succeeds with an HTML page full of links — still recorded, never expanded. -/
theorem child_depth_referrer_max_depth_witness :
    (3 : Nat) ≤ 3 ∧
      (crawl_url false cfgNone [] "a.com" 3 ["https://a.com"] ujSample "https://a.com" 3
          "root" [some ⟨200, "text/html", seedTags⟩]).2 = [] ∧
      (crawl_url false cfgNone [] "a.com" 3 ["https://a.com"] ujSample "https://a.com" 3
          "root" [some ⟨200, "text/html", seedTags⟩]).1.length = 1 :=
  ⟨by omega,
   (child_depth_referrer_max_depth cfgNone [] "a.com" 3 ["https://a.com"] ujSample
      "https://a.com" 3 "root" [some ⟨200, "text/html", seedTags⟩]).2 (by omega)⟩

/-! ## C4 — the result sink under cancellation -/

/-- C4: the batch-processor loop exits as soon as the cancellation flag is
observed set, flushing only its in-memory batch; a result already handed
off to `results_queue` but not yet dequeued is silently dropped.  Concretely:
after a worker's successful `put` of `r` onto an idle sink, cancelling
before the processor's next `get` persists nothing — `r` is on the channel
yet absent from the database (and hence from `cancel()`'s returned rows).
Had the processor run one more iteration before cancellation, `r` would
have been persisted. -/
theorem sink_cancel_drops_enqueued_result :
    (sink_put ⟨"https://a.com", Status.code 200, "root", "internal", "a.com", 0⟩
        ⟨[], [], []⟩).channel =
      [⟨"https://a.com", Status.code 200, "root", "internal", "a.com", 0⟩] ∧
      persistedOnCancel
        (sink_put ⟨"https://a.com", Status.code 200, "root", "internal", "a.com", 0⟩
          ⟨[], [], []⟩) = [] ∧
      persistedOnCancel
        (sink_iter
          (sink_put ⟨"https://a.com", Status.code 200, "root", "internal", "a.com", 0⟩
            ⟨[], [], []⟩)) =
        [⟨"https://a.com", Status.code 200, "root", "internal", "a.com", 0⟩] := by
  refine ⟨by decide, by decide, by decide⟩

/-! ## C5 — WHOIS resolution at most once per domain -/

/-- The finalization loops resolve a domain only when it is not yet in the
local `seen_domains` dict, so within one loop no domain is resolved twice
and every resolved domain was previously unseen. -/
theorem whoisCallsAux_nodup :
    ∀ (rs : List CrawlResult) (seen : List String),
      (whoisCallsAux rs seen).Nodup ∧ ∀ d ∈ whoisCallsAux rs seen, d ∉ seen := by
  intro rs
  induction rs with
  | nil => intro seen; simp [whoisCallsAux]
  | cons r rs ih =>
    intro seen
    unfold whoisCallsAux
    by_cases hx : r.typ = "external"
    · rw [if_pos hx]
      by_cases hs : r.domain ∈ seen
      · rw [if_pos hs]
        exact ih seen
      · rw [if_neg hs]
        obtain ⟨ihn, ihm⟩ := ih (r.domain :: seen)
        constructor
        · refine List.nodup_cons.mpr ⟨?_, ihn⟩
          intro hmem
          exact (ihm r.domain hmem) (List.mem_cons_self r.domain seen)
        · intro d hd
          rcases List.mem_cons.mp hd with rfl | hd'
          · exact hs
          · intro hdseen
            exact (ihm d hd') (List.mem_cons_of_mem _ hdseen)
    · rw [if_neg hx]
      exact ih seen

/-- C5 (amended): within each result-finalization path — the completion
path `run_scan_thread` and the cancellation path `cancel_scan` — the Domain
Resolver `WhoisChecker.check_domain` is invoked at most once per distinct
external domain, via that path's own `seen_domains` cache. -/
theorem whois_at_most_once_per_path (results : List CrawlResult) (hasGlobal : Bool) :
    (run_scan_whois_calls results).Nodup ∧
      (cancel_scan_whois_calls hasGlobal results).Nodup := by
  constructor
  · exact (whoisCallsAux_nodup results []).1
  · unfold cancel_scan_whois_calls
    split
    · exact (whoisCallsAux_nodup results []).1
    · simp

/-- C5 counterexample: the two paths do not share a cache.  In a cancelled
run both execute over the same results (the `cancel_scan` handler, and
`run_scan_thread`, which resumes once the workers have been joined and
finalizes via `get_results`), so one external domain is resolved once per
path — twice in the run, against the claimed at-most-once. -/
theorem whois_called_twice_across_paths :
    run_scan_whois_calls
        [⟨"https://x.com/a", Status.code 404, "https://a.com", "external", "x.com", 1⟩] =
      ["x.com"] ∧
      cancel_scan_whois_calls true
          [⟨"https://x.com/a", Status.code 404, "https://a.com", "external", "x.com", 1⟩] =
        ["x.com"] ∧
      (run_scan_whois_calls
            [⟨"https://x.com/a", Status.code 404, "https://a.com", "external", "x.com", 1⟩] ++
          cancel_scan_whois_calls true
            [⟨"https://x.com/a", Status.code 404, "https://a.com", "external", "x.com",
              1⟩]).count "x.com" = 2 := by
  refine ⟨by decide, by decide, by decide⟩

/-! ## C8 — frontier dequeue order -/

theorem charLt_true_iff {a b : Char} : charLt a b = true ↔ a.toNat < b.toNat := by
  simp [charLt]

theorem strLt_irrefl : ∀ a : List Char, strLt a a = false := by
  intro a
  induction a with
  | nil => rfl
  | cons x xs ih =>
    unfold strLt
    have hx : charLt x x = false := by
      simp [charLt]
    rw [if_neg (by simp [hx]), if_neg (by simp [hx])]
    exact ih

theorem strLt_trans : ∀ a b c : List Char,
    strLt a b = true → strLt b c = true → strLt a c = true := by
  intro a
  induction a with
  | nil =>
    intro b c hab hbc
    cases b with
    | nil => simp [strLt] at hab
    | cons y ys =>
      cases c with
      | nil => simp [strLt] at hbc
      | cons z zs => simp [strLt]
  | cons x xs ih =>
    intro b c hab hbc
    cases b with
    | nil => simp [strLt] at hab
    | cons y ys =>
      cases c with
      | nil => simp [strLt] at hbc
      | cons z zs =>
        unfold strLt at hab hbc ⊢
        by_cases hxy : charLt x y = true
        · by_cases hyz : charLt y z = true
          · rw [if_pos (charLt_true_iff.mpr (by
              have h1 := charLt_true_iff.mp hxy
              have h2 := charLt_true_iff.mp hyz
              omega))]
          · rw [if_neg (by simp [hyz])] at hbc
            by_cases hzy : charLt z y = true
            · rw [if_pos hzy] at hbc; exact absurd hbc (by simp)
            · rw [if_neg (by simp [hzy])] at hbc
              have h1 := charLt_true_iff.mp hxy
              have h2 : ¬ y.toNat < z.toNat := fun hc => hyz (charLt_true_iff.mpr hc)
              have h3 : ¬ z.toNat < y.toNat := fun hc => hzy (charLt_true_iff.mpr hc)
              rw [if_pos (charLt_true_iff.mpr (by omega))]
        · rw [if_neg (by simp [hxy])] at hab
          by_cases hyx : charLt y x = true
          · rw [if_pos hyx] at hab; exact absurd hab (by simp)
          · rw [if_neg (by simp [hyx])] at hab
            have h1 : ¬ x.toNat < y.toNat := fun hc => hxy (charLt_true_iff.mpr hc)
            have h2 : ¬ y.toNat < x.toNat := fun hc => hyx (charLt_true_iff.mpr hc)
            by_cases hyz : charLt y z = true
            · have h3 := charLt_true_iff.mp hyz
              rw [if_pos (charLt_true_iff.mpr (by omega))]
            · rw [if_neg (by simp [hyz])] at hbc
              by_cases hzy : charLt z y = true
              · rw [if_pos hzy] at hbc; exact absurd hbc (by simp)
              · rw [if_neg (by simp [hzy])] at hbc
                have h3 : ¬ y.toNat < z.toNat := fun hc => hyz (charLt_true_iff.mpr hc)
                have h4 : ¬ z.toNat < y.toNat := fun hc => hzy (charLt_true_iff.mpr hc)
                rw [if_neg (by simp only [charLt_true_iff]; omega),
                  if_neg (by simp only [charLt_true_iff]; omega)]
                exact ih ys zs hab hbc

theorem strLt_eq_of_not_lt : ∀ a b : List Char,
    strLt a b = false → strLt b a = false → a = b := by
  intro a
  induction a with
  | nil =>
    intro b hab _
    cases b with
    | nil => rfl
    | cons y ys => simp [strLt] at hab
  | cons x xs ih =>
    intro b hab hba
    cases b with
    | nil => simp [strLt] at hba
    | cons y ys =>
      unfold strLt at hab hba
      by_cases hxy : charLt x y = true
      · rw [if_pos hxy] at hab; exact absurd hab (by simp)
      · by_cases hyx : charLt y x = true
        · rw [if_pos hyx] at hba; exact absurd hba (by simp)
        · rw [if_neg (by simp [hxy]), if_neg (by simp [hyx])] at hab
          rw [if_neg (by simp [hyx]), if_neg (by simp [hxy])] at hba
          have h1 : ¬ x.toNat < y.toNat := fun hc => hxy (charLt_true_iff.mpr hc)
          have h2 : ¬ y.toNat < x.toNat := fun hc => hyx (charLt_true_iff.mpr hc)
          have hxyeq : x = y := char_eq_of_toNat_eq (by omega)
          rw [hxyeq, ih ys hab hba]

theorem string_eq_of_data {s t : String} (h : s.data = t.data) : s = t := by
  cases s
  cases t
  exact congrArg String.mk h

theorem taskLt_irrefl (a : CrawlTask) : taskLt a a = false := by
  unfold taskLt
  rw [if_neg (by omega), if_neg (by omega), if_neg (by simp [strLt_irrefl]),
    if_neg (by simp [strLt_irrefl])]
  exact strLt_irrefl a.referrer.data

theorem taskLt_true_elim {a b : CrawlTask} (h : taskLt a b = true) :
    a.depth < b.depth ∨
      (a.depth = b.depth ∧
        (strLt a.url.data b.url.data = true ∨
          (a.url.data = b.url.data ∧ strLt a.referrer.data b.referrer.data = true))) := by
  unfold taskLt at h
  by_cases h1 : a.depth < b.depth
  · exact Or.inl h1
  · rw [if_neg h1] at h
    by_cases h2 : b.depth < a.depth
    · rw [if_pos h2] at h; exact absurd h (by simp)
    · rw [if_neg h2] at h
      refine Or.inr ⟨by omega, ?_⟩
      by_cases h3 : strLt a.url.data b.url.data = true
      · exact Or.inl h3
      · rw [if_neg (by simp [h3])] at h
        by_cases h4 : strLt b.url.data a.url.data = true
        · rw [if_pos h4] at h; exact absurd h (by simp)
        · rw [if_neg (by simp [h4])] at h
          exact Or.inr ⟨strLt_eq_of_not_lt _ _ (by simpa using h3) (by simpa using h4), h⟩

theorem taskLt_true_intro {a b : CrawlTask}
    (h : a.depth < b.depth ∨
      (a.depth = b.depth ∧
        (strLt a.url.data b.url.data = true ∨
          (a.url.data = b.url.data ∧ strLt a.referrer.data b.referrer.data = true)))) :
    taskLt a b = true := by
  unfold taskLt
  rcases h with h1 | ⟨hd, h2⟩
  · rw [if_pos h1]
  · rw [if_neg (by omega), if_neg (by omega)]
    rcases h2 with h3 | ⟨hu, h4⟩
    · rw [if_pos h3]
    · rw [if_neg (by simp [hu, strLt_irrefl]), if_neg (by simp [hu, strLt_irrefl])]
      exact h4

theorem taskLt_trans {a b c : CrawlTask} (hab : taskLt a b = true)
    (hbc : taskLt b c = true) : taskLt a c = true := by
  rcases taskLt_true_elim hab with h1 | ⟨hd1, h2⟩ <;>
    rcases taskLt_true_elim hbc with h3 | ⟨hd2, h4⟩
  · exact taskLt_true_intro (Or.inl (by omega))
  · exact taskLt_true_intro (Or.inl (by omega))
  · exact taskLt_true_intro (Or.inl (by omega))
  · refine taskLt_true_intro (Or.inr ⟨by omega, ?_⟩)
    rcases h2 with h5 | ⟨hu1, h6⟩ <;> rcases h4 with h7 | ⟨hu2, h8⟩
    · exact Or.inl (strLt_trans _ _ _ h5 h7)
    · exact Or.inl (hu2 ▸ h5)
    · exact Or.inl (hu1 ▸ h7)
    · exact Or.inr ⟨hu1.trans hu2, strLt_trans _ _ _ h6 h8⟩

theorem taskLt_asymm {a b : CrawlTask} (h : taskLt a b = true) : taskLt b a = false := by
  by_contra hc
  have hba : taskLt b a = true := by
    cases hh : taskLt b a
    · exact absurd hh hc
    · rfl
  have := taskLt_trans h hba
  rw [taskLt_irrefl a] at this
  exact absurd this (by simp)

theorem taskLt_trichotomy (a b : CrawlTask) :
    taskLt a b = true ∨ taskLt b a = true ∨ a = b := by
  by_cases h1 : a.depth < b.depth
  · exact Or.inl (taskLt_true_intro (Or.inl h1))
  · by_cases h2 : b.depth < a.depth
    · exact Or.inr (Or.inl (taskLt_true_intro (Or.inl h2)))
    · by_cases h3 : strLt a.url.data b.url.data = true
      · exact Or.inl (taskLt_true_intro (Or.inr ⟨by omega, Or.inl h3⟩))
      · by_cases h4 : strLt b.url.data a.url.data = true
        · exact Or.inr (Or.inl (taskLt_true_intro (Or.inr ⟨by omega, Or.inl h4⟩)))
        · have hu : a.url.data = b.url.data :=
            strLt_eq_of_not_lt _ _ (by simpa using h3) (by simpa using h4)
          by_cases h5 : strLt a.referrer.data b.referrer.data = true
          · exact Or.inl (taskLt_true_intro (Or.inr ⟨by omega, Or.inr ⟨hu, h5⟩⟩))
          · by_cases h6 : strLt b.referrer.data a.referrer.data = true
            · exact Or.inr (Or.inl (taskLt_true_intro
                (Or.inr ⟨by omega, Or.inr ⟨hu.symm, h6⟩⟩)))
            · refine Or.inr (Or.inr ?_)
              obtain ⟨da, ua, ra⟩ := a
              obtain ⟨db, ub, rb⟩ := b
              simp only at h1 h2 hu h5 h6
              have : da = db := by omega
              subst this
              have : ua = ub := string_eq_of_data hu
              subst this
              have : ra = rb := string_eq_of_data
                (strLt_eq_of_not_lt _ _ (by simpa using h5) (by simpa using h6))
              subst this
              rfl

theorem taskLt_not_lt_trans {x m t : CrawlTask} (h1 : taskLt x m = false)
    (h2 : taskLt m t = false) : taskLt x t = false := by
  by_contra hc
  have hxt : taskLt x t = true := by
    cases hh : taskLt x t
    · exact absurd hh hc
    · rfl
  rcases taskLt_trichotomy x m with ha | hb | rfl
  · rw [ha] at h1; exact absurd h1 (by simp)
  · have := taskLt_trans hb hxt
    rw [this] at h2
    exact absurd h2 (by simp)
  · rw [hxt] at h2
    exact absurd h2 (by simp)

theorem popMin_eq_none {q : List CrawlTask} (h : popMin q = none) : q = [] := by
  cases q with
  | nil => rfl
  | cons t ts =>
    exfalso
    cases hp : popMin ts with
    | none => simp [popMin, hp] at h
    | some tr =>
      obtain ⟨m, rest⟩ := tr
      simp only [popMin, hp] at h
      split at h <;> simp at h

theorem popMin_head_mem : ∀ {q : List CrawlTask} {m : CrawlTask} {rest : List CrawlTask},
    popMin q = some (m, rest) → m ∈ q := by
  intro q
  induction q with
  | nil => intro m rest h; simp [popMin] at h
  | cons t ts ih =>
    intro m rest h
    cases hp : popMin ts with
    | none =>
      simp only [popMin, hp, Option.some.injEq, Prod.mk.injEq] at h
      obtain ⟨h1, _⟩ := h
      subst h1
      exact List.mem_cons_self t ts
    | some tr =>
      obtain ⟨m', rest'⟩ := tr
      simp only [popMin, hp] at h
      split at h
      · simp only [Option.some.injEq, Prod.mk.injEq] at h
        obtain ⟨h1, _⟩ := h
        subst h1
        exact List.mem_cons_of_mem t (ih hp)
      · simp only [Option.some.injEq, Prod.mk.injEq] at h
        obtain ⟨h1, _⟩ := h
        subst h1
        exact List.mem_cons_self t ts

theorem popMin_rest_sub : ∀ {q : List CrawlTask} {m : CrawlTask} {rest : List CrawlTask},
    popMin q = some (m, rest) → ∀ x ∈ rest, x ∈ q := by
  intro q
  induction q with
  | nil => intro m rest h; simp [popMin] at h
  | cons t ts ih =>
    intro m rest h x hx
    cases hp : popMin ts with
    | none =>
      simp only [popMin, hp, Option.some.injEq, Prod.mk.injEq] at h
      obtain ⟨_, h2⟩ := h
      subst h2
      simp at hx
    | some tr =>
      obtain ⟨m', rest'⟩ := tr
      simp only [popMin, hp] at h
      split at h
      · simp only [Option.some.injEq, Prod.mk.injEq] at h
        obtain ⟨_, h2⟩ := h
        subst h2
        rcases List.mem_cons.mp hx with rfl | hx'
        · exact List.mem_cons_self x ts
        · exact List.mem_cons_of_mem t (ih hp x hx')
      · simp only [Option.some.injEq, Prod.mk.injEq] at h
        obtain ⟨_, h2⟩ := h
        subst h2
        exact List.mem_cons_of_mem t hx

/-- `popMin` returns a minimal element of the queue with respect to the
Python tuple order. -/
theorem popMin_min : ∀ {q : List CrawlTask} {m : CrawlTask} {rest : List CrawlTask},
    popMin q = some (m, rest) → ∀ x ∈ q, taskLt x m = false := by
  intro q
  induction q with
  | nil => intro m rest h; simp [popMin] at h
  | cons t ts ih =>
    intro m rest h x hx
    cases hp : popMin ts with
    | none =>
      have hts : ts = [] := popMin_eq_none hp
      subst hts
      simp only [popMin, Option.some.injEq, Prod.mk.injEq] at h
      obtain ⟨h1, _⟩ := h
      subst h1
      rcases List.mem_cons.mp hx with rfl | hx'
      · exact taskLt_irrefl x
      · simp at hx'
    | some tr =>
      obtain ⟨m', rest'⟩ := tr
      simp only [popMin, hp] at h
      split at h
      · rename_i hlt
        simp only [Option.some.injEq, Prod.mk.injEq] at h
        obtain ⟨h1, _⟩ := h
        subst h1
        rcases List.mem_cons.mp hx with rfl | hx'
        · exact taskLt_asymm hlt
        · exact ih hp x hx'
      · rename_i hnlt
        have hmt : taskLt m' t = false := by
          cases hh : taskLt m' t
          · rfl
          · exact absurd hh hnlt
        simp only [Option.some.injEq, Prod.mk.injEq] at h
        obtain ⟨h1, _⟩ := h
        subst h1
        rcases List.mem_cons.mp hx with rfl | hx'
        · exact taskLt_irrefl x
        · exact taskLt_not_lt_trans (ih hp x hx') hmt

theorem drainFuel_mem : ∀ (n : Nat) (q : List CrawlTask) (y : CrawlTask),
    y ∈ drainFuel n q → y ∈ q := by
  intro n
  induction n with
  | zero => intro q y h; simp [drainFuel] at h
  | succ n ih =>
    intro q y h
    unfold drainFuel at h
    cases hp : popMin q with
    | none => rw [hp] at h; simp at h
    | some tr =>
      obtain ⟨t, rest⟩ := tr
      rw [hp] at h
      rcases List.mem_cons.mp h with rfl | h'
      · exact popMin_head_mem hp
      · exact popMin_rest_sub hp y (ih rest y h')

theorem drainFuel_pairwise : ∀ (n : Nat) (q : List CrawlTask),
    List.Pairwise (fun a b => taskLt b a = false) (drainFuel n q) := by
  intro n
  induction n with
  | zero => intro q; simp [drainFuel]
  | succ n ih =>
    intro q
    unfold drainFuel
    cases hp : popMin q with
    | none => simp
    | some tr =>
      obtain ⟨t, rest⟩ := tr
      refine List.pairwise_cons.mpr ⟨?_, ih rest⟩
      intro y hy
      exact popMin_min hp y (popMin_rest_sub hp y (drainFuel_mem n rest y hy))

theorem depth_le_of_not_taskLt {a b : CrawlTask} (h : taskLt b a = false) :
    a.depth ≤ b.depth := by
  by_contra hc
  have : taskLt b a = true := taskLt_true_intro (Or.inl (by omega))
  rw [this] at h
  exact absurd h (by simp)

/-- C8 (amended): the frontier dequeues tasks in ascending order of the
whole Python tuple `(depth, url, referrer)` — so in ascending depth, with
equal-depth ties broken by the lexicographic comparison of the URL (and
then referrer) strings that `queue.PriorityQueue`'s heap performs, not by
insertion order. -/
theorem frontier_dequeue_sorted (q : List CrawlTask) :
    List.Pairwise (fun a b => taskLt b a = false) (drainAll q) ∧
      List.Pairwise (fun a b => a.depth ≤ b.depth) (drainAll q) := by
  have h := drainFuel_pairwise q.length q
  exact ⟨h, h.imp depth_le_of_not_taskLt⟩

/-- C8 counterexample: two equal-depth tasks inserted with the
lexicographically larger URL first.  Insertion order would dequeue
`https://b.com` first; the heap dequeues `https://a.com` first. -/
theorem frontier_tie_not_insertion_order :
    drainAll [⟨1, "https://b.com", "x"⟩, ⟨1, "https://a.com", "x"⟩] =
      [⟨1, "https://a.com", "x"⟩, ⟨1, "https://b.com", "x"⟩] ∧
      (⟨1, "https://a.com", "x"⟩ : CrawlTask) ≠ ⟨1, "https://b.com", "x"⟩ := by
  refine ⟨by decide, by decide⟩

/-! ## C6 — the link filter matches the spec's enqueue rule -/

/-- The source's two-stage filtering (resource/visited checks inside
`_extract_links`, visited/robots checks at the enqueue site in
`_crawl_url`) produces exactly the tasks selected by the spec's flat
enqueue rule. -/
theorem extract_filter_eq_spec (visited : List String) (cfg : CrawlResources)
    (robots : List String) (pageUrl : String) (uj : String → String → String)
    (depth : Nat) :
    ∀ tags : List Tag,
      ((extract_links visited cfg pageUrl uj tags).filter
          (fun l => decide (l ∉ visited) && robots_allowed robots l)).map
        (fun l => (⟨depth + 1, l, pageUrl⟩ : CrawlTask)) =
      tags.filterMap (spec_enqueues visited cfg robots pageUrl uj depth) := by
  intro tags
  induction tags with
  | nil => rfl
  | cons t ts ih =>
    simp only [decide_not] at ih
    cases he : effectiveHref t with
    | none => simp [extract_links, spec_enqueues, he, ih]
    | some h =>
      by_cases h0 : h = ""
      · simp [extract_links, spec_enqueues, he, h0, ih]
      · by_cases hsk : skipHref h = true
        · simp [extract_links, spec_enqueues, he, h0, hsk, ih]
        · by_cases hnf : hasNofollow t = true
          · simp [extract_links, spec_enqueues, he, h0, hsk, hnf, ih]
          · by_cases hval : is_valid_url (uj pageUrl h) = true
            · by_cases hv : normalize_url (uj pageUrl h) ∈ visited
              · simp [extract_links, spec_enqueues, he, h0, hsk, hnf, hval, hv, ih]
              · cases hr : get_resource_type (normalize_url (uj pageUrl h)) with
                | some rt =>
                  by_cases hen : resourceEnabled cfg rt = true
                  · by_cases hrob : robots_allowed robots (normalize_url (uj pageUrl h)) = true
                    · simp [extract_links, spec_enqueues, he, h0, hsk, hnf, hval, hv, hr,
                        hen, hrob, ih]
                    · simp [extract_links, spec_enqueues, he, h0, hsk, hnf, hval, hv, hr,
                        hen, hrob, ih]
                  · simp [extract_links, spec_enqueues, he, h0, hsk, hnf, hval, hv, hr,
                      hen, ih]
                | none =>
                  by_cases hrob : robots_allowed robots (normalize_url (uj pageUrl h)) = true
                  · simp [extract_links, spec_enqueues, he, h0, hsk, hnf, hval, hv, hr,
                      hrob, ih]
                  · simp [extract_links, spec_enqueues, he, h0, hsk, hnf, hval, hv, hr,
                      hrob, ih]
            · simp [extract_links, spec_enqueues, he, h0, hsk, hnf, hval, ih]

theorem fetchWithRetry_resp_some {attempts : List (Option Resp)} {r : Resp}
    (h : (fetchWithRetry attempts).resp = some r) :
    (fetchWithRetry attempts).status = Status.code r.code ∧
      (fetchWithRetry attempts).contentType = r.contentType := by
  unfold fetchWithRetry at h ⊢
  cases h0 : attempts.getD 0 none with
  | some r0 =>
    simp only [h0] at h ⊢
    obtain rfl := Option.some.inj h
    exact ⟨rfl, rfl⟩
  | none =>
    cases h1 : attempts.getD 1 none with
    | some r1 =>
      simp only [h0, h1] at h ⊢
      obtain rfl := Option.some.inj h
      exact ⟨rfl, rfl⟩
    | none =>
      cases h2 : attempts.getD 2 none with
      | some r2 =>
        simp only [h0, h1, h2] at h ⊢
        obtain rfl := Option.some.inj h
        exact ⟨rfl, rfl⟩
      | none => rw [h0, h1, h2] at h; exact absurd h (by simp)

/-- C6: for a fetched page that is internal, has HTTP status 200, an HTML
content type and `depth < max_depth`, the child tasks `_crawl_url` enqueues
are exactly those given by the spec's rule: one task per candidate link
whose href is present and truthy, does not start with `javascript:` /
`mailto:` / `tel:` / `#`, is not `rel=nofollow`, resolves to a URL passing
`isValid`, and whose normalized URL is unvisited, robots-allowed, and
either has no resource type or has its resource category enabled. -/
theorem extract_enqueue_matches_spec (cfg : CrawlResources) (robots : List String)
    (base_domain : String) (max_depth : Nat) (visited : List String)
    (uj : String → String → String) (url : String) (depth : Nat) (referrer : String)
    (attempts : List (Option Resp)) (r : Resp)
    (hresp : (fetchWithRetry attempts).resp = some r)
    (h200 : r.code = 200)
    (hhtml : containsSub "text/html".data r.contentType.data = true)
    (hint : is_external_url base_domain url = false)
    (hdepth : depth < max_depth) :
    (crawl_url false cfg robots base_domain max_depth visited uj url depth referrer
        attempts).2 =
      r.body.filterMap (spec_enqueues visited cfg robots url uj depth) := by
  obtain ⟨hs, hct⟩ := fetchWithRetry_resp_some hresp
  simp only [crawl_url, if_neg (by simp : ¬(false = true)), hint]
  rw [if_pos ⟨trivial, by rw [hs, h200], by rw [hct]; exact hhtml, hdepth⟩]
  rw [hresp]
  show (if r.body.isEmpty then []
      else ((extract_links visited cfg url uj r.body).filter
          (fun l => decide (l ∉ visited) && robots_allowed robots l)).map
        (fun l => (⟨depth + 1, l, url⟩ : CrawlTask))) = _
  split
  · rename_i hbody
    rw [List.isEmpty_iff.mp hbody]
    rfl
  · exact extract_filter_eq_spec visited cfg robots url uj depth r.body

/-- Witness for C6 at a concrete internal 200 HTML page below the depth
limit. -/
theorem extract_enqueue_matches_spec_witness :
    (fetchWithRetry [some respC6]).resp = some respC6 ∧
      respC6.code = 200 ∧
      containsSub "text/html".data respC6.contentType.data = true ∧
      is_external_url "a.com" "https://a.com" = false ∧
      (0 : Nat) < 3 ∧
      (crawl_url false cfgNone ["/admin"] "a.com" 3 ["https://a.com"] ujSample
          "https://a.com" 0 "root" [some respC6]).2 =
        respC6.body.filterMap
          (spec_enqueues ["https://a.com"] cfgNone ["/admin"] "https://a.com" ujSample 0) :=
  ⟨by decide, by decide, by decide, by decide, by decide,
   extract_enqueue_matches_spec cfgNone ["/admin"] "a.com" 3 ["https://a.com"] ujSample
     "https://a.com" 0 "root" [some respC6] respC6 (by decide) (by decide) (by decide)
     (by decide) (by decide)⟩

/-! ## C1 — dedup across a run -/

theorem crawl_url_fst (cfg : CrawlResources) (robots : List String) (base_domain : String)
    (max_depth : Nat) (visited : List String) (uj : String → String → String)
    (url : String) (depth : Nat) (referrer : String) (attempts : List (Option Resp)) :
    (crawl_url false cfg robots base_domain max_depth visited uj url depth referrer
        attempts).1 =
      [⟨url, (fetchWithRetry attempts).status, referrer,
        if is_external_url base_domain url then "external" else "internal",
        get_domain url, depth⟩] := by
  simp [crawl_url]

theorem workerStep_inv (e : Env) (s : CrawlState) (h : StateInv s) :
    StateInv (workerStep e s) := by
  unfold workerStep
  cases hp : popMin s.frontier with
  | none => exact h
  | some tr =>
    obtain ⟨t, rest⟩ := tr
    show StateInv (if t.url ∈ s.visited then ⟨rest, s.visited, s.results⟩
      else ⟨rest ++ (crawl_url false e.cfg e.robots e.base_domain e.max_depth
          (s.visited ++ [t.url]) e.uj t.url t.depth t.referrer (e.world t.url)).2,
        s.visited ++ [t.url],
        s.results ++ (crawl_url false e.cfg e.robots e.base_domain e.max_depth
          (s.visited ++ [t.url]) e.uj t.url t.depth t.referrer (e.world t.url)).1⟩)
    by_cases hv : t.url ∈ s.visited
    · rw [if_pos hv]
      exact h
    · rw [if_neg hv]
      constructor
      · show ((s.results ++ (crawl_url false e.cfg e.robots e.base_domain e.max_depth
            (s.visited ++ [t.url]) e.uj t.url t.depth t.referrer (e.world t.url)).1).map
            (fun r => r.url)).Nodup
        rw [crawl_url_fst]
        rw [List.map_append]
        rw [List.nodup_append]
        refine ⟨h.1, by simp, ?_⟩
        intro x hx
        rcases List.mem_map.mp hx with ⟨r, hr, rfl⟩
        have : r.url ∈ s.visited := h.2 r hr
        simp only [List.map_cons, List.map_nil, List.mem_singleton]
        intro hc
        exact hv (hc ▸ this)
      · intro r hr
        show r.url ∈ s.visited ++ [t.url]
        rcases List.mem_append.mp hr with hr' | hr'
        · exact List.mem_append.mpr (Or.inl (h.2 r hr'))
        · rw [crawl_url_fst] at hr'
          rcases List.mem_singleton.mp hr' with rfl
          exact List.mem_append.mpr (Or.inr (List.mem_singleton.mpr rfl))

theorem runSteps_inv (e : Env) : ∀ (n : Nat) (s : CrawlState),
    StateInv s → StateInv (runSteps e n s) := by
  intro n
  induction n with
  | zero => intro s h; exact h
  | succ n ih => intro s h; exact ih (workerStep e s) (workerStep_inv e s h)

/-- C1 (amended): in any run of the worker loop from a fresh state, the
dequeue-time test-and-insert into `visited` guarantees that no URL is
crawled twice: the recorded results carry pairwise-distinct URL strings.
(Their *normalized* URLs need not be distinct — see the counterexample.) -/
theorem run_results_urls_nodup (e : Env) (seed : String) (n : Nat) :
    ((runSteps e n (initState seed)).results.map (fun r => r.url)).Nodup :=
  (runSteps_inv e n (initState seed) ⟨List.nodup_nil, by simp [initState]⟩).1

/-- C1 counterexample: the seed `https://a.com` links to `/p` and to
`/p/#f`.  The two child URLs are enqueued in normalized form as
`https://a.com/p` and `https://a.com/p/` — distinct strings, so both pass
the visited check and both are crawled — yet they normalize to the same
URL (normalization is not idempotent: stripping the fragment of
`.../p/#f` re-exposes a trailing slash).  The run records three results
with pairwise-distinct URL strings but duplicate normalized URLs. -/
theorem normalized_url_duplicate_run :
    ((runSteps envSample 3 (initState "https://a.com")).results.map (fun r => r.url)) =
      ["https://a.com", "https://a.com/p", "https://a.com/p/"] ∧
      ¬ ((runSteps envSample 3 (initState "https://a.com")).results.map
          (fun r => normalize_url r.url)).Nodup := by
  refine ⟨by decide, by decide⟩
